import Mathlib

/-!
Shallow embedding of the care-taker-portal backend (src/methods.js) and
proofs about its request handlers and aggregation queries.

Conventions of the embedding:
* JavaScript request-field values are modelled by `JsVal`, distinguishing
  `undefined` from `null`, numbers, strings and booleans, because the
  handlers compare fields against `undefined` with strict equality and
  branch on JavaScript truthiness.
* The relational store is a record of row lists.  `Sequelize` calls that
  are passed a transaction handle take effect only at commit; calls that
  are not passed the handle autocommit immediately (this distinction is
  visible in the source: `post_session` passes `transaction: t` to its
  creates, `post_schedule` does not).
* Fallible external calls (row writes, the mail transport) are driven by
  an explicit failure model so that every interleaving of failures the
  code can encounter is a concrete input.
* Times handed to `new Date(...)` are modelled as epoch milliseconds, and
  JavaScript `Date` subtraction as integer subtraction of those
  milliseconds.
-/

namespace CareTakerPortal

/-! ## Definitions: data model, handlers, adapters, reports -/

/-- JavaScript values as they occur in request bodies: the handlers
distinguish `undefined` from every other value and branch on truthiness. -/
inductive JsVal where
  | undef
  | null
  | num (n : Int)
  | str (s : String)
  | bool (b : Bool)
deriving DecidableEq, Repr

/-- JavaScript truthiness of a `JsVal` (used by `if (!intake.ingested))`:
`undefined`, `null`, `0`, the empty string and `false` are falsy. -/
def JsVal.truthy : JsVal → Bool
  | .undef => false
  | .null => false
  | .num n => ¬ (n = 0)
  | .str s => ¬ (s = "")
  | .bool b => b

/-- A Medication as it appears nested under a CabinetBox in the eager load
of `getPatientMedications`: its NDC codes and its names. -/
structure MedNested where
  ndcs : List String
  brand_name : String
  generic_name : String
deriving DecidableEq, Repr

/-- A CabinetBox row as returned by the nested eager load in
`getPatientMedications`: the box either resolves to a Medication (with its
NDC codes) or does not. -/
structure CabinetBoxRow where
  medication : Option MedNested
  box : Int
  quantity : Int
deriving DecidableEq, Repr

/-- A Cabinet as returned by the nested eager load: its CabinetBoxes. -/
structure CabinetRow where
  boxes : List CabinetBoxRow
deriving DecidableEq, Repr

/-- A Patient row together with the associations the handlers read:
the associated Caretaker (only its email is used) and the optional
Cabinet aggregate. -/
structure PatientRow where
  id : JsVal
  caretakerEmail : Option String
  cabinet : Option CabinetRow
deriving DecidableEq, Repr

/-- A Session row (`Session.create(req.body)` keeps the two ids). -/
structure SessionRow where
  id : Nat
  patient_id : JsVal
  cabinet_id : JsVal
deriving DecidableEq, Repr

/-- A SessionIntake row.  `patient_id` is a column of the table (the report
query filters on it) that `post_session` never supplies in its create call,
so rows created there carry NULL in it. -/
structure SessionIntakeRow where
  medication_id : Nat
  start_time : Int
  ingest_time : Int
  end_time : Int
  ingested : JsVal
  session_id : Nat
  patient_id : JsVal
deriving DecidableEq, Repr

/-- A Schedule row as created by `post_schedule`. -/
structure ScheduleRow where
  patient_id : JsVal
  medication_id : Nat
  day : String
  time : String
deriving DecidableEq, Repr

/-- A Medication row persisted by `createMedication`. -/
structure MedRow where
  id : Nat
  brand_name : String
  generic_name : String
deriving DecidableEq, Repr

/-- An NDC row persisted by `createMedication`. -/
structure NDCRow where
  code : String
  medication_id : Nat
deriving DecidableEq, Repr

/-- The relational store: one list of rows per table the claims touch. -/
structure Store where
  patients : List PatientRow
  sessions : List SessionRow
  sessionIntakes : List SessionIntakeRow
  schedules : List ScheduleRow
  medications : List MedRow
  ndcs : List NDCRow
deriving DecidableEq, Repr

/-- One element of `req.body.medications` in a schedule request. -/
structure ScheduleItem where
  medication_id : Nat
  day : String
  time : String
deriving DecidableEq, Repr

/-- A schedule request body. -/
structure ScheduleReq where
  patient_id : JsVal
  cabinet_id : JsVal
  medications : List ScheduleItem
deriving DecidableEq, Repr

/-- Failure model for `post_schedule`: whether the i-th `Schedule.create`
succeeds. -/
structure ScheduleFailures where
  createOk : Nat → Bool

/-- Outcome of a write handler: HTTP status and the store afterwards. -/
structure WriteResult where
  status : Nat
  store : Store
deriving Repr

/-- Runs the `Schedule.create` loop of `post_schedule` starting at item
index `i`: returns the rows that were persisted (each create autocommits,
because the source does not pass `transaction: t` to `Schedule.create`)
and whether the loop completed without an exception. -/
def insertSchedules (pid : JsVal) (fm : ScheduleFailures) :
    List ScheduleItem → Nat → List ScheduleRow × Bool
  | [], _ => ([], true)
  | item :: rest, i =>
    if fm.createOk i then
      let (rows, ok) := insertSchedules pid fm rest (i + 1)
      (⟨pid, item.medication_id, item.day, item.time⟩ :: rows, ok)
    else
      ([], false)

/-- Embedding of `post_schedule` (src/methods.js lines 169-195).  A
transaction `t` is opened, but none of the `Schedule.create` calls is
attached to it, so each successful create is immediately durable and
`t.rollback()` undoes nothing. -/
def post_schedule (db : Store) (fm : ScheduleFailures) (req : ScheduleReq) :
    WriteResult :=
  if req.patient_id = JsVal.undef ∨ req.cabinet_id = JsVal.undef then
    -- throw Error → catch → t.rollback() → 400 (no create was reached)
    ⟨400, db⟩
  else
    let (rows, ok) := insertSchedules req.patient_id fm req.medications 0
    -- the created rows are durable whether or not the loop completed:
    -- commit and rollback both act on an empty transaction
    if ok then
      ⟨200, { db with schedules := db.schedules ++ rows }⟩
    else
      ⟨400, { db with schedules := db.schedules ++ rows }⟩

/-- One element of `req.body.session_intakes`. -/
structure IntakeItem where
  medication_id : Nat
  start_time : Int
  ingest_time : Int
  end_time : Int
  ingested : JsVal
deriving DecidableEq, Repr

/-- A session request body. -/
structure SessionReq where
  patient_id : JsVal
  cabinet_id : JsVal
  session_intakes : List IntakeItem
deriving DecidableEq, Repr

/-- Failure model for `post_session`: whether `Session.create` succeeds,
whether the i-th `SessionIntake.create` succeeds, and whether the mail
transport succeeds for the i-th intake item. -/
structure SessionFailures where
  sessionCreateOk : Bool
  intakeCreateOk : Nat → Bool
  emailOk : Nat → Bool

/-- Embedding of `getCaretakerEmail` (src/methods.js lines 208-232):
`Patient.findOne` including the Caretaker; `some email` when both the
patient and the caretaker relation exist, `none` when the function throws. -/
def getCaretakerEmail (patients : List PatientRow) (patientId : JsVal) :
    Option String :=
  match patients.find? (fun p => p.id = patientId) with
  | some p => p.caretakerEmail
  | none => none

/-- Outcome of `post_session`: status, the committed store, and the trace of
email addresses `sendEmailToCaretaker` was invoked with (emails are a side
effect outside the transaction, so the trace survives a rollback). -/
structure SessionResult where
  status : Nat
  store : Store
  emails : List String
deriving Repr

/-- The SessionIntake row `post_session` builds for one intake item: the
create call supplies every field except `patient_id`, which is left NULL. -/
def mkIntakeRow (sid : Nat) (item : IntakeItem) : SessionIntakeRow :=
  ⟨item.medication_id, item.start_time, item.ingest_time,
    item.end_time, item.ingested, sid, JsVal.null⟩

/-- Runs the intake loop of `post_session` starting at item index `i`.
Returns `Except`: on success the pending `SessionIntake` rows (they are in
transaction `t`, durable only at commit) together with the emails attempted;
on an exception, the emails attempted before and including the failing call. -/
def processIntakes (patients : List PatientRow) (fm : SessionFailures)
    (pid : JsVal) (sid : Nat) :
    List IntakeItem → Nat → Except (List String) (List SessionIntakeRow × List String)
  | [], _ => .ok ([], [])
  | item :: rest, i =>
    if fm.intakeCreateOk i then
      let row := mkIntakeRow sid item
      if item.ingested.truthy then
        -- ingested: no notification, continue the loop
        match processIntakes patients fm pid sid rest (i + 1) with
        | .ok (rows, es) => .ok (row :: rows, es)
        | .error es => .error es
      else
        -- !intake.ingested: resolve the caretaker email, then send
        match getCaretakerEmail patients pid with
        | none => .error []      -- getCaretakerEmail threw: no send attempted
        | some em =>
          if fm.emailOk i then
            match processIntakes patients fm pid sid rest (i + 1) with
            | .ok (rows, es) => .ok (row :: rows, em :: es)
            | .error es => .error (em :: es)
          else
            .error [em]          -- the send was attempted and threw
    else
      .error []                  -- SessionIntake.create threw

/-- Embedding of `post_session` (src/methods.js lines 265-306).  Both
`Session.create` and every `SessionIntake.create` are attached to
transaction `t`, so an exception anywhere in the batch rolls back every row
of this call; the store is extended only on commit. -/
def post_session (db : Store) (fm : SessionFailures) (req : SessionReq) :
    SessionResult :=
  if req.patient_id = JsVal.undef ∨ req.cabinet_id = JsVal.undef then
    -- throw Error → catch → t.rollback() → 400
    ⟨400, db, []⟩
  else if fm.sessionCreateOk then
    let sid := db.sessions.length
    match processIntakes db.patients fm req.patient_id sid
        req.session_intakes 0 with
    | .ok (rows, es) =>
      -- t.commit(): the Session row and all its intake rows become durable
      ⟨200,
        { db with
          sessions := db.sessions ++ [⟨sid, req.patient_id, req.cabinet_id⟩],
          sessionIntakes := db.sessionIntakes ++ rows },
        es⟩
    | .error es =>
      -- t.rollback(): no row of this call survives
      ⟨400, db, es⟩
  else
    -- Session.create threw → rollback → 400
    ⟨400, db, []⟩

/-- All external calls that `post_session` makes after `Session.create`
succeed: every `SessionIntake.create`, and for every non-ingested item the
caretaker lookup and the mail transport. -/
def requiredCallsOk (patients : List PatientRow) (fm : SessionFailures)
    (req : SessionReq) : Prop :=
  fm.sessionCreateOk = true ∧
  ∀ j, (h : j < req.session_intakes.length) →
    fm.intakeCreateOk j = true ∧
    ((req.session_intakes.get ⟨j, h⟩).ingested.truthy = false →
      (getCaretakerEmail patients req.patient_id).isSome = true ∧
        fm.emailOk j = true)

/-- Outcome of one upstream HTTP GET: the transport fails, or it returns a
body whose `results` field is absent (`none`) or a list. -/
inductive FetchOutcome (α : Type) where
  | failure
  | success (results : Option (List α))

/-- A normalized medication summary, the uniform shape `mapMedicationData`
produces from an upstream result (external id, names, product codes). -/
structure MedInfo where
  id : Nat
  brand_name : String
  generic_name : String
  product_ndc : List String
deriving DecidableEq, Repr

/-- Embedding of `getMedicationById` (src/methods.js lines 318-333): on a
body with `results` it returns the first normalized summary, on a body
without `results` it returns `null`, and on a transport error it logs and
falls through returning `undefined`; both of the latter are `none`. -/
def getMedicationById (upstream : Nat → FetchOutcome MedInfo) (id : Nat) :
    Option MedInfo :=
  match upstream id with
  | .failure => none
  | .success none => none
  | .success (some rs) => rs.head?

/-- Row-list upsert keyed by `key`: when a row with the same key exists,
every such row is overwritten in place, otherwise the row is appended.
This is the store-level insert-or-overwrite `Model.upsert` performs. -/
def upsertBy {α κ : Type} [DecidableEq κ] (key : α → κ) (r : α)
    (rows : List α) : List α :=
  if rows.any (fun x => key x = key r) then
    rows.map (fun x => if key x = key r then r else x)
  else
    rows ++ [r]

/-- Embedding of `createMedication` (src/methods.js lines 341-351).  When
the lookup yields no summary, `Medication.upsert(medication)` receives
`null`/`undefined` and throws inside the ORM before issuing any write, so
the call fails with no row persisted (`none`).  Otherwise the Medication
row is upserted from the summary and one NDC row is upserted per product
code, each with `medication_id` equal to the argument id. -/
def createMedication (upstream : Nat → FetchOutcome MedInfo) (id : Nat)
    (db : Store) : Option Store :=
  match getMedicationById upstream id with
  | none => none
  | some info =>
    let meds := upsertBy (fun (m : MedRow) => m.id)
      ⟨info.id, info.brand_name, info.generic_name⟩ db.medications
    let codes := info.product_ndc.foldl
      (fun acc c => upsertBy (fun (n : NDCRow) => n.code) ⟨c, id⟩ acc) db.ndcs
    some { db with medications := meds, ndcs := codes }

/-- the NDC upsert loop of createMedication -/
def upsertNdcs (id : Nat) (codes : List String) (acc : List NDCRow) :
    List NDCRow :=
  codes.foldl (fun acc c => upsertBy (fun (n : NDCRow) => n.code) ⟨c, id⟩ acc) acc

/-- The URL `search_medications` builds (src/methods.js lines 85-86),
including the malformed juncture where the closing quote of the
generic-name clause abuts `OR` with no space. -/
def searchUrl (base searchQuery : String) : String :=
  base ++ "?search=(openfda.brand_name:\"" ++ searchQuery
    ++ "\" OR openfda.generic_name:\"" ++ searchQuery
    ++ "\"OR openfda.product_ndc:\"" ++ searchQuery ++ "\")&limit=10"

/-- Embedding of the response handling of `search_medications`
(src/methods.js lines 88-98): status and JSON body, with the
normalization `mapMedicationData` abstracted as `mapFn`. -/
def search_medications {α β : Type} (mapFn : List α → List β) :
    FetchOutcome α → Nat × List β
  | .failure => (404, [])
  | .success none => (200, [])
  | .success (some rs) => (200, mapFn rs)

/-- One output row of `getPatientMedications`. -/
structure PatientMedView where
  ndcs : List String
  brand_name : String
  generic_name : String
  box : Int
  quantity : Int
deriving DecidableEq, Repr

/-- Embedding of `getPatientMedications` (src/methods.js lines 484-525):
`Patient.findByPk` with the nested Cabinet → CabinetBox → Medication → NDC
eager load, then a reduce that pushes one row per CabinetBox whose
`Medication` resolved. -/
def getPatientMedications (db : Store) (patientId : JsVal) :
    List PatientMedView :=
  match db.patients.find? (fun p => p.id = patientId) with
  | none => []
  | some p =>
    match p.cabinet with
    | none => []
    | some cab =>
      cab.boxes.foldl
        (fun acc b =>
          match b.medication with
          | some m => acc ++ [⟨m.ndcs, m.brand_name, m.generic_name, b.box, b.quantity⟩]
          | none => acc)
        []

/-- view of one cabinet box -/
def boxView (b : CabinetBoxRow) : Option PatientMedView :=
  b.medication.map
    (fun m => ⟨m.ndcs, m.brand_name, m.generic_name, b.box, b.quantity⟩)

/-- One element of the intermediate `ingestionTimes` list in
`getIngestionTime`. -/
structure IngestionEntry where
  medication_id : Nat
  brand_name : String
  generic_name : String
  ingestionTime : ℚ
deriving DecidableEq, Repr

/-- One output row of `getIngestionTime`. -/
structure IngestionView where
  brand_name : String
  generic_name : String
  average_ingestion_time : ℚ
deriving DecidableEq, Repr

/-- Embedding of `getIngestionTime` (src/methods.js lines 535-578):
`SessionIntake.findAll` filtered on `patient_id` with required joins to
Medication and to the Patient with that id; per intake the code computes
`(new Date(end_time) - new Date(start_time)) / 60`, where `Date`
subtraction yields milliseconds; then a group-by on `medication_id`
(object keys of integer shape enumerate in ascending order) and, per
group, the mean of `ingestionTime` with the name fields of the first
entry. -/
def getIngestionTime (db : Store) (id : JsVal) : List IngestionView :=
  let intakes :=
    if db.patients.any (fun p => p.id = id) then
      db.sessionIntakes.filter (fun r => r.patient_id = id)
    else []
  let ingestionTimes := intakes.filterMap (fun r =>
    (db.medications.find? (fun m => m.id = r.medication_id)).map (fun m =>
      ({ medication_id := r.medication_id
         brand_name := m.brand_name
         generic_name := m.generic_name
         ingestionTime := ((r.end_time - r.start_time : Int) : ℚ) / 60 } :
        IngestionEntry)))
  let keys := ((ingestionTimes.map (fun e => e.medication_id)).dedup).insertionSort (· ≤ ·)
  keys.map (fun mid =>
    let group := ingestionTimes.filter (fun e => e.medication_id = mid)
    { brand_name := ((group.head?).map (fun e => e.brand_name)).getD ""
      generic_name := ((group.head?).map (fun e => e.generic_name)).getD ""
      average_ingestion_time :=
        (group.map (fun e => e.ingestionTime)).sum / (group.length : ℚ) })

/-- A store with no rows. -/
def emptyStore : Store := ⟨[], [], [], [], [], []⟩

/-- Failure model in which no external call fails. -/
def noFailures : SessionFailures := ⟨true, fun _ => true, fun _ => true⟩

/-- Schedule failure model in which no row insert fails. -/
def schedNoFailures : ScheduleFailures := ⟨fun _ => true⟩

/-- Schedule failure model in which only the first insert succeeds. -/
def schedFailSecond : ScheduleFailures := ⟨fun i => decide (i = 0)⟩

/-- A schedule request with both ids present and two schedule items. -/
def schedDemoReq : ScheduleReq :=
  ⟨JsVal.num 1, JsVal.num 2, [⟨5, "Mon", "08:00"⟩, ⟨6, "Tue", "09:00"⟩]⟩

/-- A store holding one patient (id 1), one medication (id 7) and two
SessionIntake rows for that patient and medication, with start and end
times five and fifteen minutes apart (300000 and 900000 milliseconds). -/
def ingestionDemoStore : Store :=
  { patients := [⟨JsVal.num 1, some "caretaker.portal@outlook.com", none⟩]
    sessions := []
    sessionIntakes :=
      [⟨7, 0, 0, 300000, JsVal.bool true, 0, JsVal.num 1⟩,
       ⟨7, 0, 0, 900000, JsVal.bool true, 0, JsVal.num 1⟩]
    schedules := []
    medications := [⟨7, "BrandA", "GenericA"⟩]
    ndcs := [] }

def alertStore : Store :=
  ⟨[⟨JsVal.num 1, some "caretaker@outlook.com", none⟩], [], [], [], [], []⟩

def emailFailSession : SessionFailures := ⟨true, fun _ => true, fun _ => false⟩

def rollbackDemoReq : SessionReq :=
  ⟨JsVal.num 1, JsVal.num 2,
    [⟨7, 0, 30000, 60000, JsVal.bool true⟩,
     ⟨8, 0, 30000, 60000, JsVal.bool false⟩]⟩

def missedDemoReq : SessionReq :=
  ⟨JsVal.num 1, JsVal.num 2,
    [⟨7, 0, 30000, 60000, JsVal.bool true⟩,
     ⟨8, 0, 30000, 60000, JsVal.bool false⟩,
     ⟨9, 0, 30000, 60000, JsVal.bool false⟩]⟩

def falsyDemoReq : SessionReq :=
  ⟨JsVal.num 1, JsVal.num 2,
    [⟨1, 0, 0, 60000, JsVal.undef⟩,
     ⟨2, 0, 0, 60000, JsVal.null⟩,
     ⟨3, 0, 0, 60000, JsVal.num 0⟩,
     ⟨4, 0, 0, 60000, JsVal.str ""⟩,
     ⟨5, 0, 0, 60000, JsVal.bool false⟩,
     ⟨6, 0, 0, 60000, JsVal.num 5⟩]⟩

def validationDemoStore : Store :=
  ⟨[⟨JsVal.null, some "caretaker@outlook.com", none⟩], [], [], [], [], []⟩

def cabinetDemoStore : Store :=
  ⟨[⟨JsVal.num 3, some "caretaker@outlook.com",
      some ⟨[⟨some ⟨["0002-1433"], "BrandB", "GenericB"⟩, 1, 30⟩,
             ⟨none, 2, 10⟩]⟩⟩], [], [], [], [], []⟩

def demoUpstream : Nat → FetchOutcome MedInfo := fun id =>
  if id = 11 then
    .success (some [⟨11, "BrandC", "GenericC", ["0002-1433", "0002-1434"]⟩])
  else
    .success none

def demoMedStore : Store :=
  ⟨[], [], [], [], [⟨11, "BrandC", "GenericC"⟩],
    [⟨"0002-1433", 11⟩, ⟨"0002-1434", 11⟩]⟩

/-! ## Theorems -/

theorem processIntakes_nil (patients : List PatientRow)
    (fm : SessionFailures) (pid : JsVal) (sid : Nat) (i : Nat) :
    processIntakes patients fm pid sid [] i = .ok ([], []) := rfl

theorem processIntakes_cons (patients : List PatientRow)
    (fm : SessionFailures) (pid : JsVal) (sid : Nat)
    (item : IntakeItem) (rest : List IntakeItem) (i : Nat) :
    processIntakes patients fm pid sid (item :: rest) i =
      if fm.intakeCreateOk i then
        if item.ingested.truthy then
          match processIntakes patients fm pid sid rest (i + 1) with
          | .ok (rows, es) => .ok (mkIntakeRow sid item :: rows, es)
          | .error es => .error es
        else
          match getCaretakerEmail patients pid with
          | none => .error []
          | some em =>
            if fm.emailOk i then
              match processIntakes patients fm pid sid rest (i + 1) with
              | .ok (rows, es) => .ok (mkIntakeRow sid item :: rows, em :: es)
              | .error es => .error (em :: es)
            else
              .error [em]
      else
        .error [] := rfl

theorem processIntakes_noFail (patients : List PatientRow)
    (fm : SessionFailures) (pid : JsVal) (sid : Nat) (em : String)
    (hem : getCaretakerEmail patients pid = some em)
    (hintake : ∀ i, fm.intakeCreateOk i = true)
    (hemail : ∀ i, fm.emailOk i = true) :
    ∀ (items : List IntakeItem) (i : Nat),
      processIntakes patients fm pid sid items i =
        .ok (items.map (mkIntakeRow sid),
          (items.filter (fun it => ! it.ingested.truthy)).map (fun _ => em)) := by
  intro items
  induction items with
  | nil => intro i; simp [processIntakes_nil]
  | cons item rest ih =>
    intro i
    rw [processIntakes_cons, hintake i, if_pos rfl]
    by_cases ht : item.ingested.truthy
    · rw [if_pos ht, ih (i + 1)]
      simp [List.filter_cons, ht]
    · rw [if_neg ht]
      simp only [hem, hemail i, if_pos rfl, ih (i + 1)]
      simp only [Bool.not_eq_true] at ht
      simp [List.filter_cons, ht]

theorem processIntakes_ok_rows (patients : List PatientRow)
    (fm : SessionFailures) (pid : JsVal) (sid : Nat) :
    ∀ (items : List IntakeItem) (i : Nat) rows es,
      processIntakes patients fm pid sid items i = .ok (rows, es) →
      rows = items.map (mkIntakeRow sid) := by
  intro items
  induction items with
  | nil =>
    intro i rows es h
    rw [processIntakes_nil] at h
    simp only [Except.ok.injEq, Prod.mk.injEq] at h
    simp [← h.1]
  | cons item rest ih =>
    intro i rows es h
    rw [processIntakes_cons] at h
    by_cases hcr : fm.intakeCreateOk i
    swap
    · rw [if_neg hcr] at h; exact absurd h (by simp)
    rw [if_pos hcr] at h
    by_cases ht : item.ingested.truthy
    · rw [if_pos ht] at h
      rcases hrec : processIntakes patients fm pid sid rest (i + 1) with
        es' | ⟨rows', es'⟩
      · rw [hrec] at h; exact absurd h (by simp)
      · rw [hrec] at h
        simp only [Except.ok.injEq, Prod.mk.injEq] at h
        rw [← h.1, ih (i + 1) rows' es' hrec]
        simp
    · rw [if_neg ht] at h
      rcases hgc : getCaretakerEmail patients pid with _ | em
      · rw [hgc] at h; exact absurd h (by simp)
      simp only [hgc] at h
      by_cases he : fm.emailOk i
      swap
      · rw [if_neg he] at h; exact absurd h (by simp)
      rw [if_pos he] at h
      rcases hrec : processIntakes patients fm pid sid rest (i + 1) with
        es' | ⟨rows', es'⟩
      · rw [hrec] at h; exact absurd h (by simp)
      · rw [hrec] at h
        simp only [Except.ok.injEq, Prod.mk.injEq] at h
        rw [← h.1, ih (i + 1) rows' es' hrec]
        simp

theorem processIntakes_isOk_iff (patients : List PatientRow)
    (fm : SessionFailures) (pid : JsVal) (sid : Nat) :
    ∀ (items : List IntakeItem) (i : Nat),
      (∃ pr, processIntakes patients fm pid sid items i = .ok pr) ↔
      (∀ j, (h : j < items.length) →
        fm.intakeCreateOk (i + j) = true ∧
        ((items.get ⟨j, h⟩).ingested.truthy = false →
          (getCaretakerEmail patients pid).isSome = true ∧
            fm.emailOk (i + j) = true)) := by
  intro items
  induction items with
  | nil =>
    intro i
    constructor
    · intro _ j h; exact absurd h (by simp)
    · intro _; exact ⟨([], []), rfl⟩
  | cons item rest ih =>
    intro i
    by_cases hcr : fm.intakeCreateOk i
    case neg =>
      constructor
      · rintro ⟨pr, hpr⟩
        rw [processIntakes_cons, if_neg hcr] at hpr
        exact absurd hpr (by simp)
      · intro hall
        have h0 := (hall 0 (by simp)).1
        simp only [Nat.add_zero] at h0
        exact absurd h0 hcr
    case pos =>
    by_cases ht : item.ingested.truthy
    case pos =>
      have hrw : ∀ pr, processIntakes patients fm pid sid (item :: rest) i = .ok pr ↔
          ∃ rows es, processIntakes patients fm pid sid rest (i + 1) = .ok (rows, es) ∧
            pr = (mkIntakeRow sid item :: rows, es) := by
        intro pr
        rw [processIntakes_cons, if_pos hcr, if_pos ht]
        rcases hrec : processIntakes patients fm pid sid rest (i + 1) with es' | ⟨rows', es'⟩
        · simp
        · simp only [Except.ok.injEq]
          constructor
          · intro h; exact ⟨rows', es', rfl, h.symm⟩
          · rintro ⟨rows, es, hre, hpr⟩
            subst hpr
            simp only [hrec, Except.ok.injEq, Prod.mk.injEq] at hre
            simp [hre.1, hre.2]
      constructor
      · rintro ⟨pr, hpr⟩
        obtain ⟨rows, es, hrec, -⟩ := (hrw pr).1 hpr
        have hrest := (ih (i + 1)).1 ⟨(rows, es), hrec⟩
        intro j h
        match j with
        | 0 =>
          refine ⟨by simpa using hcr, fun hf => ?_⟩
          exact absurd hf (by simp [ht])
        | j + 1 =>
          have h' : j < rest.length := by simp only [List.length_cons] at h; omega
          have hj := hrest j h'
          simpa [Nat.add_assoc, Nat.add_comm 1 j] using hj
      · intro hall
        have hrest : ∀ j, (h : j < rest.length) →
            fm.intakeCreateOk (i + 1 + j) = true ∧
            ((rest.get ⟨j, h⟩).ingested.truthy = false →
              (getCaretakerEmail patients pid).isSome = true ∧
                fm.emailOk (i + 1 + j) = true) := by
          intro j h
          have hj := hall (j + 1) (by simp only [List.length_cons]; omega)
          simpa [Nat.add_assoc, Nat.add_comm 1 j] using hj
        obtain ⟨⟨rows, es⟩, hrec⟩ := (ih (i + 1)).2 hrest
        exact ⟨_, (hrw _).2 ⟨rows, es, hrec, rfl⟩⟩
    case neg =>
    rcases hgc : getCaretakerEmail patients pid with _ | em
    · constructor
      · rintro ⟨pr, hpr⟩
        rw [processIntakes_cons, if_pos hcr, if_neg ht] at hpr
        simp only [hgc] at hpr
        exact absurd hpr (by simp)
      · intro hall
        have h0 := (hall 0 (by simp)).2 (by simpa using ht)
        simp at h0
    · by_cases he : fm.emailOk i
      case neg =>
        constructor
        · rintro ⟨pr, hpr⟩
          rw [processIntakes_cons, if_pos hcr, if_neg ht] at hpr
          simp only [hgc, if_neg he] at hpr
          exact absurd hpr (by simp)
        · intro hall
          have h0 := (hall 0 (by simp)).2 (by simpa using ht)
          simp only [Nat.add_zero] at h0
          exact absurd h0.2 he
      case pos =>
        have hrw : ∀ pr, processIntakes patients fm pid sid (item :: rest) i = .ok pr ↔
            ∃ rows es, processIntakes patients fm pid sid rest (i + 1) = .ok (rows, es) ∧
              pr = (mkIntakeRow sid item :: rows, em :: es) := by
          intro pr
          rw [processIntakes_cons, if_pos hcr, if_neg ht]
          simp only [hgc, if_pos he]
          rcases hrec : processIntakes patients fm pid sid rest (i + 1) with es' | ⟨rows', es'⟩
          · simp
          · simp only [Except.ok.injEq]
            constructor
            · intro h; exact ⟨rows', es', rfl, h.symm⟩
            · rintro ⟨rows, es, hre, hpr⟩
              subst hpr
              simp only [hrec, Except.ok.injEq, Prod.mk.injEq] at hre
              simp [hre.1, hre.2]
        constructor
        · rintro ⟨pr, hpr⟩
          obtain ⟨rows, es, hrec, -⟩ := (hrw pr).1 hpr
          have hrest := (ih (i + 1)).1 ⟨(rows, es), hrec⟩
          intro j h
          match j with
          | 0 =>
            exact ⟨by simpa using hcr, fun _ => ⟨by simp [hgc], by simpa using he⟩⟩
          | j + 1 =>
            have h' : j < rest.length := by simp only [List.length_cons] at h; omega
            have hj := hrest j h'
            simpa [Nat.add_assoc, Nat.add_comm 1 j, hgc] using hj
        · intro hall
          have hrest : ∀ j, (h : j < rest.length) →
              fm.intakeCreateOk (i + 1 + j) = true ∧
              ((rest.get ⟨j, h⟩).ingested.truthy = false →
                (getCaretakerEmail patients pid).isSome = true ∧
                  fm.emailOk (i + 1 + j) = true) := by
            intro j h
            have hj := hall (j + 1) (by simp only [List.length_cons]; omega)
            simpa [Nat.add_assoc, Nat.add_comm 1 j, hgc] using hj
          obtain ⟨⟨rows, es⟩, hrec⟩ := (ih (i + 1)).2 hrest
          exact ⟨_, (hrw _).2 ⟨rows, es, hrec, rfl⟩⟩

theorem insertSchedules_noFail (pid : JsVal) (fm : ScheduleFailures)
    (hok : ∀ i, fm.createOk i = true) :
    ∀ (items : List ScheduleItem) (i : Nat),
      insertSchedules pid fm items i =
        (items.map (fun it => ⟨pid, it.medication_id, it.day, it.time⟩), true) := by
  intro items
  induction items with
  | nil => intro i; rfl
  | cons item rest ih =>
    intro i
    simp [insertSchedules, hok i, ih (i + 1)]

theorem upsertBy_mem {α κ : Type} [DecidableEq κ] (key : α → κ) (r : α)
    (rows : List α) : r ∈ upsertBy key r rows := by
  unfold upsertBy
  by_cases h : rows.any (fun x => key x = key r)
  · rw [if_pos h]
    simp only [List.any_eq_true, decide_eq_true_eq] at h
    obtain ⟨x, hx, hk⟩ := h
    exact List.mem_map.2 ⟨x, hx, by simp [hk]⟩
  · rw [if_neg h]; simp

theorem upsertBy_same_key {α κ : Type} [DecidableEq κ] (key : α → κ) (r : α)
    (rows : List α) : ∀ x ∈ upsertBy key r rows, key x = key r → x = r := by
  intro x hx hk
  unfold upsertBy at hx
  by_cases h : rows.any (fun x => key x = key r)
  · rw [if_pos h] at hx
    obtain ⟨y, hy, hyx⟩ := List.mem_map.1 hx
    by_cases hky : key y = key r
    · rw [if_pos hky] at hyx; exact hyx.symm
    · rw [if_neg hky] at hyx; subst hyx; exact absurd hk hky
  · rw [if_neg h] at hx
    rcases List.mem_append.1 hx with h1 | h1
    · exfalso
      apply h
      simp only [List.any_eq_true, decide_eq_true_eq]
      exact ⟨x, h1, hk⟩
    · simpa using h1

theorem upsertBy_keeps {α κ : Type} [DecidableEq κ] (key : α → κ) (r v : α)
    (k : κ) (rows : List α)
    (hall : ∀ x ∈ rows, key x = k → x = v)
    (hr : key r = k → r = v) :
    ∀ x ∈ upsertBy key r rows, key x = k → x = v := by
  intro x hx hk
  unfold upsertBy at hx
  by_cases h : rows.any (fun x => key x = key r)
  · rw [if_pos h] at hx
    obtain ⟨y, hy, hyx⟩ := List.mem_map.1 hx
    by_cases hky : key y = key r
    · rw [if_pos hky] at hyx; subst hyx; exact hr hk
    · rw [if_neg hky] at hyx; subst hyx; exact hall _ hy hk
  · rw [if_neg h] at hx
    rcases List.mem_append.1 hx with h1 | h1
    · exact hall _ h1 hk
    · have hxr : x = r := by simpa using h1
      subst hxr; exact hr hk

theorem upsertBy_keeps_mem {α κ : Type} [DecidableEq κ] (key : α → κ)
    (r v : α) (rows : List α) (hv : v ∈ rows)
    (hs : key r = key v → r = v) : v ∈ upsertBy key r rows := by
  unfold upsertBy
  by_cases h : rows.any (fun x => key x = key r)
  · rw [if_pos h]
    refine List.mem_map.2 ⟨v, hv, ?_⟩
    by_cases hk : key v = key r
    · rw [if_pos hk]; exact hs hk.symm
    · rw [if_neg hk]
  · rw [if_neg h]; exact List.mem_append.2 (Or.inl hv)

theorem upsertBy_self_noop {α κ : Type} [DecidableEq κ] (key : α → κ) (r : α)
    (rows : List α) (hmem : r ∈ rows)
    (hall : ∀ x ∈ rows, key x = key r → x = r) :
    upsertBy key r rows = rows := by
  unfold upsertBy
  have h : rows.any (fun x => key x = key r) = true := by
    simp only [List.any_eq_true, decide_eq_true_eq]
    exact ⟨r, hmem, rfl⟩
  rw [if_pos h]
  calc rows.map (fun x => if key x = key r then r else x)
      = rows.map id := by
        apply List.map_congr_left
        intro x hx
        by_cases hk : key x = key r
        · rw [if_pos hk]; exact (hall x hx hk).symm
        · rw [if_neg hk]; rfl
    _ = rows := List.map_id rows

theorem upsertBy_idem {α κ : Type} [DecidableEq κ] (key : α → κ) (r : α)
    (rows : List α) :
    upsertBy key r (upsertBy key r rows) = upsertBy key r rows :=
  upsertBy_self_noop key r _ (upsertBy_mem key r rows)
    (upsertBy_same_key key r rows)

theorem upsertBy_keys_nodup {α κ : Type} [DecidableEq κ] (key : α → κ)
    (r : α) (rows : List α) (h : (rows.map key).Nodup) :
    ((upsertBy key r rows).map key).Nodup := by
  unfold upsertBy
  by_cases hany : rows.any (fun x => key x = key r)
  · rw [if_pos hany, List.map_map]
    have e : rows.map (key ∘ fun x => if key x = key r then r else x) =
        rows.map key := by
      apply List.map_congr_left
      intro x hx
      by_cases hk : key x = key r
      · simp [Function.comp, hk]
      · simp [Function.comp, hk]
    rw [e]; exact h
  · rw [if_neg hany, List.map_append]
    rw [List.nodup_append]
    refine ⟨h, List.nodup_singleton _, ?_⟩
    intro a ha hb
    simp only [List.map_cons, List.map_nil, List.mem_singleton] at hb
    subst hb
    apply hany
    simp only [List.any_eq_true, decide_eq_true_eq]
    obtain ⟨x, hx, hkx⟩ := List.mem_map.1 ha
    exact ⟨x, hx, hkx⟩

theorem upsertNdcs_nil (id : Nat) (acc : List NDCRow) :
    upsertNdcs id [] acc = acc := rfl

theorem upsertNdcs_cons (id : Nat) (c : String) (codes : List String)
    (acc : List NDCRow) :
    upsertNdcs id (c :: codes) acc =
      upsertNdcs id codes (upsertBy (fun (n : NDCRow) => n.code) ⟨c, id⟩ acc) := rfl

theorem upsertNdcs_keeps_mem (id : Nat) (c : String) :
    ∀ (codes : List String) (acc : List NDCRow),
      NDCRow.mk c id ∈ acc → NDCRow.mk c id ∈ upsertNdcs id codes acc := by
  intro codes
  induction codes with
  | nil => intro acc h; exact h
  | cons c2 rest ih =>
    intro acc h
    rw [upsertNdcs_cons]
    apply ih
    apply upsertBy_keeps_mem
    · exact h
    · intro hk
      simp only at hk
      rw [hk]

theorem upsertNdcs_keeps_same_key (id : Nat) (c : String) :
    ∀ (codes : List String) (acc : List NDCRow),
      (∀ x ∈ acc, x.code = c → x = NDCRow.mk c id) →
      ∀ x ∈ upsertNdcs id codes acc, x.code = c → x = NDCRow.mk c id := by
  intro codes
  induction codes with
  | nil => intro acc h; exact h
  | cons c2 rest ih =>
    intro acc h
    rw [upsertNdcs_cons]
    apply ih
    apply upsertBy_keeps
    · exact h
    · intro hk
      simp only at hk
      rw [hk]

theorem upsertNdcs_mem (id : Nat) :
    ∀ (codes : List String) (acc : List NDCRow),
      ∀ c ∈ codes, NDCRow.mk c id ∈ upsertNdcs id codes acc := by
  intro codes
  induction codes with
  | nil => intro acc c hc; exact absurd hc (by simp)
  | cons c2 rest ih =>
    intro acc c hc
    rcases List.mem_cons.1 hc with h | h
    · subst h
      rw [upsertNdcs_cons]
      exact upsertNdcs_keeps_mem id c rest _
        (upsertBy_mem (fun (n : NDCRow) => n.code) ⟨c, id⟩ acc)
    · rw [upsertNdcs_cons]
      exact ih _ c h

theorem upsertNdcs_same_key (id : Nat) :
    ∀ (codes : List String) (acc : List NDCRow),
      ∀ c ∈ codes, ∀ x ∈ upsertNdcs id codes acc, x.code = c →
        x = NDCRow.mk c id := by
  intro codes
  induction codes with
  | nil => intro acc c hc; exact absurd hc (by simp)
  | cons c2 rest ih =>
    intro acc c hc
    rcases List.mem_cons.1 hc with h | h
    · subst h
      rw [upsertNdcs_cons]
      apply upsertNdcs_keeps_same_key
      exact upsertBy_same_key (fun (n : NDCRow) => n.code) ⟨c, id⟩ acc
    · rw [upsertNdcs_cons]
      exact ih _ c h

theorem upsertNdcs_noop (id : Nat) :
    ∀ (codes : List String) (acc : List NDCRow),
      (∀ c ∈ codes, NDCRow.mk c id ∈ acc ∧
        (∀ x ∈ acc, x.code = c → x = NDCRow.mk c id)) →
      upsertNdcs id codes acc = acc := by
  intro codes
  induction codes with
  | nil => intro acc _; rfl
  | cons c2 rest ih =>
    intro acc h
    rw [upsertNdcs_cons]
    have h2 := h c2 (by simp)
    rw [upsertBy_self_noop (fun (n : NDCRow) => n.code) ⟨c2, id⟩ acc h2.1 h2.2]
    exact ih acc (fun c hc => h c (by simp [hc]))

theorem upsertNdcs_idem (id : Nat) (codes : List String) (acc : List NDCRow) :
    upsertNdcs id codes (upsertNdcs id codes acc) = upsertNdcs id codes acc := by
  apply upsertNdcs_noop
  intro c hc
  exact ⟨upsertNdcs_mem id codes acc c hc,
    upsertNdcs_same_key id codes acc c hc⟩

theorem upsertNdcs_keys_nodup (id : Nat) :
    ∀ (codes : List String) (acc : List NDCRow),
      (acc.map (fun n => n.code)).Nodup →
      ((upsertNdcs id codes acc).map (fun n => n.code)).Nodup := by
  intro codes
  induction codes with
  | nil => intro acc h; exact h
  | cons c2 rest ih =>
    intro acc h
    rw [upsertNdcs_cons]
    exact ih _ (upsertBy_keys_nodup (fun (n : NDCRow) => n.code) ⟨c2, id⟩ acc h)

theorem countP_key_eq_one {α κ : Type} [DecidableEq κ] (key : α → κ)
    (rows : List α) (k : κ) (hnd : (rows.map key).Nodup)
    (hmem : ∃ x ∈ rows, key x = k) :
    rows.countP (fun x => key x = k) = 1 := by
  have h1 : rows.countP (fun x => key x = k) = (rows.map key).count k := by
    rw [List.count, List.countP_map]
    apply List.countP_congr
    intro x hx
    rfl
  rw [h1]
  have hle := List.nodup_iff_count_le_one.1 hnd k
  have hge : 0 < (rows.map key).count k := by
    rw [List.count_pos_iff]
    obtain ⟨x, hx, hk⟩ := hmem
    exact hk ▸ List.mem_map_of_mem key hx
  omega

theorem createMedication_eq (upstream : Nat → FetchOutcome MedInfo) (id : Nat)
    (db : Store) (info : MedInfo)
    (hlook : getMedicationById upstream id = some info) :
    createMedication upstream id db =
      some { db with
        medications := upsertBy (fun (m : MedRow) => m.id)
          ⟨info.id, info.brand_name, info.generic_name⟩ db.medications,
        ndcs := upsertNdcs id info.product_ndc db.ndcs } := by
  simp [createMedication, hlook, upsertNdcs]

theorem foldl_push_eq_filterMap (boxes : List CabinetBoxRow) :
    ∀ acc : List PatientMedView,
      boxes.foldl
        (fun acc b =>
          match b.medication with
          | some m => acc ++ [⟨m.ndcs, m.brand_name, m.generic_name, b.box, b.quantity⟩]
          | none => acc)
        acc = acc ++ boxes.filterMap boxView := by
  induction boxes with
  | nil => intro acc; simp
  | cons b rest ih =>
    intro acc
    rcases hm : b.medication with _ | m
    · simp only [List.foldl_cons, hm]
      rw [ih]
      simp [boxView, hm]
    · simp only [List.foldl_cons, hm]
      rw [ih]
      simp [boxView, hm]

theorem length_filterMap_boxView (boxes : List CabinetBoxRow) :
    (boxes.filterMap boxView).length =
      boxes.countP (fun b => b.medication.isSome) := by
  induction boxes with
  | nil => rfl
  | cons b rest ih =>
    rcases hm : b.medication with _ | m
    · simp [List.filterMap_cons, boxView, hm, List.countP_cons, ih]
    · simp [List.filterMap_cons, boxView, hm, List.countP_cons, ih]

/-- Claim C1: for a session request with both ids present, the batch is all-or-nothing: the answer is 200 exactly when every row write and every required caretaker lookup and email send succeeded; on any failure the store is unchanged (the Session row and every SessionIntake row of the call are absent), and on success exactly the Session row and one SessionIntake row per item are appended. -/
theorem post_session_all_or_nothing (db : Store) (fm : SessionFailures)
    (req : SessionReq)
    (hp : req.patient_id ≠ JsVal.undef) (hc : req.cabinet_id ≠ JsVal.undef) :
    ((post_session db fm req).status = 200 ↔ requiredCallsOk db.patients fm req) ∧
    ((post_session db fm req).status ≠ 200 → (post_session db fm req).store = db) ∧
    ((post_session db fm req).status = 200 →
      (post_session db fm req).store =
        { db with
          sessions := db.sessions ++
            [⟨db.sessions.length, req.patient_id, req.cabinet_id⟩],
          sessionIntakes := db.sessionIntakes ++
            req.session_intakes.map (mkIntakeRow db.sessions.length) }) := by
  have hval : ¬ (req.patient_id = JsVal.undef ∨ req.cabinet_id = JsVal.undef) := by
    rintro (h | h)
    · exact hp h
    · exact hc h
  by_cases hs : fm.sessionCreateOk
  case neg =>
    have e : post_session db fm req = ⟨400, db, []⟩ := by
      simp [post_session, hval, hs]
    rw [e]
    refine ⟨⟨fun h => absurd h (by simp), fun hrc => absurd hrc.1 hs⟩, ?_, ?_⟩
    · intro _; rfl
    · intro h; exact absurd h (by simp)
  case pos =>
    rcases hpi : processIntakes db.patients fm req.patient_id db.sessions.length
        req.session_intakes 0 with es | ⟨rows, es⟩
    · have e : post_session db fm req = ⟨400, db, es⟩ := by
        simp [post_session, hval, hs, hpi]
      rw [e]
      refine ⟨⟨fun h => absurd h (by simp), fun hrc => ?_⟩, ?_, ?_⟩
      · obtain ⟨pr, hpr⟩ :=
          (processIntakes_isOk_iff db.patients fm req.patient_id
            db.sessions.length req.session_intakes 0).2 (by
              intro j h
              simpa using hrc.2 j h)
        rw [hpi] at hpr
        exact absurd hpr (by simp)
      · intro _; rfl
      · intro h; exact absurd h (by simp)
    · have e : post_session db fm req =
          ⟨200,
            { db with
              sessions := db.sessions ++
                [⟨db.sessions.length, req.patient_id, req.cabinet_id⟩],
              sessionIntakes := db.sessionIntakes ++ rows },
            es⟩ := by
        simp [post_session, hval, hs, hpi]
      rw [e]
      have hrows := processIntakes_ok_rows db.patients fm req.patient_id
        db.sessions.length req.session_intakes 0 rows es hpi
      refine ⟨⟨fun _ => ?_, fun _ => rfl⟩, ?_, ?_⟩
      · refine ⟨hs, fun j h => ?_⟩
        have := (processIntakes_isOk_iff db.patients fm req.patient_id
          db.sessions.length req.session_intakes 0).1 ⟨(rows, es), hpi⟩ j h
        simpa using this
      · intro h; exact absurd rfl h
      · intro _
        rw [hrows]

/-- Witness for C1: with a mail transport that fails, a request with two intake items (the second one not ingested) answers 400 and leaves the store unchanged. -/
theorem post_session_all_or_nothing_witness :
    (post_session alertStore emailFailSession rollbackDemoReq).status = 400 ∧
    (post_session alertStore emailFailSession rollbackDemoReq).store = alertStore := by
  have h := post_session_all_or_nothing alertStore emailFailSession rollbackDemoReq
    (by decide) (by decide)
  exact ⟨by decide, h.2.1 (by decide)⟩

/-- C2: the claim says `post_schedule` is all-or-nothing inside one
transaction, with no Schedule row from a failed call persisted.  The code
violates this: `Schedule.create` is not attached to transaction `t`, so on
a request with two items where the second insert fails, the call answers
400 (BadRequest) yet the first Schedule row remains durably persisted
after `t.rollback()`. -/
theorem post_schedule_persists_after_rollback_bug :
    (post_schedule emptyStore schedFailSecond schedDemoReq).status = 400 ∧
    (post_schedule emptyStore schedFailSecond schedDemoReq).store.schedules =
      [⟨JsVal.num 1, 5, "Mon", "08:00"⟩] := by
  decide

/-- C3: the claim says the average ingestion time for intakes of five and
fifteen minutes is 10 (minutes).  The code computes
`(new Date(end) - new Date(start)) / 60`, and JavaScript `Date`
subtraction yields milliseconds, so the reported average is 10000, not the
10 minutes the claim (and the source comment `// in minutes`) state. -/
theorem getIngestionTime_milliseconds_bug :
    getIngestionTime ingestionDemoStore (JsVal.num 1) =
      [{ brand_name := "BrandA", generic_name := "GenericA",
         average_ingestion_time := 10000 }] ∧
    ∀ v ∈ getIngestionTime ingestionDemoStore (JsVal.num 1),
      v.average_ingestion_time ≠ 10 := by
  have h : getIngestionTime ingestionDemoStore (JsVal.num 1) =
      [{ brand_name := "BrandA", generic_name := "GenericA",
         average_ingestion_time := 10000 }] := by
    norm_num [getIngestionTime, ingestionDemoStore, List.filter, List.filterMap,
      List.find?, List.any, List.dedup, List.insertionSort, List.orderedInsert]
  refine ⟨h, ?_⟩
  rw [h]
  intro v hv
  simp only [List.mem_singleton] at hv
  subst hv
  norm_num

/-- Claim C4: in one recordSession call in which no external call fails, with boolean ingested fields, the emails attempted are exactly one per intake item with ingested = false, each addressed to the caretaker email resolved for the request patient_id, and none for items with ingested = true. -/
theorem post_session_notification_per_missed_intake (db : Store)
    (fm : SessionFailures) (req : SessionReq) (em : String)
    (hp : req.patient_id ≠ JsVal.undef) (hc : req.cabinet_id ≠ JsVal.undef)
    (hs : fm.sessionCreateOk = true)
    (hcr : ∀ i, fm.intakeCreateOk i = true)
    (hml : ∀ i, fm.emailOk i = true)
    (hem : getCaretakerEmail db.patients req.patient_id = some em)
    (hbool : ∀ item ∈ req.session_intakes,
      item.ingested = JsVal.bool true ∨ item.ingested = JsVal.bool false) :
    (post_session db fm req).emails =
      (req.session_intakes.filter
        (fun item => item.ingested = JsVal.bool false)).map (fun _ => em) := by
  have hval : ¬ (req.patient_id = JsVal.undef ∨ req.cabinet_id = JsVal.undef) := by
    rintro (h | h)
    · exact hp h
    · exact hc h
  have hpi := processIntakes_noFail db.patients fm req.patient_id
    db.sessions.length em hem hcr hml req.session_intakes 0
  have e : (post_session db fm req).emails =
      (req.session_intakes.filter
        (fun it => ! it.ingested.truthy)).map (fun _ => em) := by
    simp [post_session, hval, hs, hpi]
  rw [e]
  congr 1
  apply List.filter_congr
  intro item hmem
  rcases hbool item hmem with h | h <;> simp [h, JsVal.truthy]

/-- Witness for C4: of three intake items (ingested true, false, false), exactly the two missed ones produce an attempt, both to the caretaker address. -/
theorem post_session_notification_per_missed_intake_witness :
    (post_session alertStore noFailures missedDemoReq).emails =
      ["caretaker@outlook.com", "caretaker@outlook.com"] := by
  have h := post_session_notification_per_missed_intake alertStore noFailures
    missedDemoReq "caretaker@outlook.com" (by decide) (by decide) rfl
    (fun _ => rfl) (fun _ => rfl) (by decide) (by decide)
  rw [h]
  decide

/-- Claim C5: when the lookup reports the medication absent, createMedication fails and persists neither a Medication row nor an NDC row; when the lookup succeeds with a summary carrying the requested external id, it persists the medication row keyed by that id and one NDC row per product code, each associated to that medication id, leaving the other tables unchanged. -/
theorem createMedication_contract (upstream : Nat → FetchOutcome MedInfo)
    (id : Nat) (db : Store) :
    (getMedicationById upstream id = none →
      createMedication upstream id db = none) ∧
    (∀ info, getMedicationById upstream id = some info → info.id = id →
      ∃ db2, createMedication upstream id db = some db2 ∧
        MedRow.mk id info.brand_name info.generic_name ∈ db2.medications ∧
        (∀ c ∈ info.product_ndc, NDCRow.mk c id ∈ db2.ndcs) ∧
        db2.patients = db.patients ∧ db2.sessions = db.sessions ∧
        db2.sessionIntakes = db.sessionIntakes ∧
        db2.schedules = db.schedules) := by
  constructor
  · intro h
    simp [createMedication, h]
  · intro info hlook hid
    subst hid
    refine ⟨_, createMedication_eq upstream info.id db info hlook, ?_, ?_, rfl, rfl, rfl, rfl⟩
    · exact upsertBy_mem (fun (m : MedRow) => m.id)
        ⟨info.id, info.brand_name, info.generic_name⟩ db.medications
    · intro c hc
      exact upsertNdcs_mem info.id info.product_ndc db.ndcs c hc

/-- Witness for C5: a lookup table holding id 11 with two product codes; id 12 fails with the store untouched, id 11 stores the medication row and its NDC rows. -/
theorem createMedication_contract_witness :
    createMedication demoUpstream 12 emptyStore = none ∧
    ∃ db2, createMedication demoUpstream 11 emptyStore = some db2 ∧
      MedRow.mk 11 "BrandC" "GenericC" ∈ db2.medications ∧
      NDCRow.mk "0002-1433" 11 ∈ db2.ndcs := by
  have h1 := (createMedication_contract demoUpstream 12 emptyStore).1 (by decide)
  have h2 := (createMedication_contract demoUpstream 11 emptyStore).2
    ⟨11, "BrandC", "GenericC", ["0002-1433", "0002-1434"]⟩ (by decide) rfl
  obtain ⟨db2, he, hmed, hndc, -⟩ := h2
  exact ⟨h1, db2, he, hmed, hndc "0002-1433" (by decide)⟩

/-- Claim C6: createMedication is idempotent when the lookup succeeds: running it a second time does not change the store, and when the summary carries the requested id and the store keys are unique, the resulting store holds exactly one Medication row for the id and exactly one NDC row per product code. -/
theorem createMedication_idempotent (upstream : Nat → FetchOutcome MedInfo)
    (id : Nat) (db : Store) (info : MedInfo)
    (hlook : getMedicationById upstream id = some info) :
    ((createMedication upstream id db).bind (createMedication upstream id) =
      createMedication upstream id db) ∧
    (info.id = id → (db.medications.map (fun m => m.id)).Nodup →
      (db.ndcs.map (fun n => n.code)).Nodup →
      ∀ db2, createMedication upstream id db = some db2 →
        db2.medications.countP (fun m => m.id = id) = 1 ∧
        ∀ c ∈ info.product_ndc, db2.ndcs.countP (fun n => n.code = c) = 1) := by
  have e1 := createMedication_eq upstream id db info hlook
  constructor
  · rw [e1, Option.some_bind, createMedication_eq upstream id _ info hlook]
    simp only [Option.some.injEq, Store.mk.injEq]
    exact ⟨trivial, trivial, trivial, trivial, upsertBy_idem _ _ _, upsertNdcs_idem _ _ _⟩
  · intro hid hnm hnn db2 h2
    rw [e1] at h2
    simp only [Option.some.injEq] at h2
    subst h2
    constructor
    · apply countP_key_eq_one (fun (m : MedRow) => m.id) _ id
      · exact upsertBy_keys_nodup (fun (m : MedRow) => m.id) _ db.medications hnm
      · refine ⟨⟨info.id, info.brand_name, info.generic_name⟩, upsertBy_mem _ _ _, hid⟩
    · intro c hc
      apply countP_key_eq_one (fun (n : NDCRow) => n.code) _ c
      · exact upsertNdcs_keys_nodup id info.product_ndc db.ndcs hnn
      · exact ⟨⟨c, id⟩, upsertNdcs_mem id info.product_ndc db.ndcs c hc, rfl⟩

/-- Witness for C6: storing medication 11 twice equals storing it once, with single rows for the id and each code. -/
theorem createMedication_idempotent_witness :
    ((createMedication demoUpstream 11 emptyStore).bind
        (createMedication demoUpstream 11) =
      createMedication demoUpstream 11 emptyStore) ∧
    demoMedStore.medications.countP (fun m => m.id = 11) = 1 ∧
    demoMedStore.ndcs.countP (fun n => n.code = "0002-1433") = 1 := by
  have h := createMedication_idempotent demoUpstream 11 emptyStore
    ⟨11, "BrandC", "GenericC", ["0002-1433", "0002-1434"]⟩ (by decide)
  have h2 := h.2 rfl (by decide) (by decide) demoMedStore (by decide)
  exact ⟨h.1, h2.1, h2.2 "0002-1433" (by decide)⟩

/-- Claim C7: search_medications answers 404 with an empty list on upstream transport failure, 200 with an empty list when the upstream body has no results field, and 200 with the normalized results otherwise; the URL it queries carries the brand-name, generic-name and product-code clauses joined by OR junctures and ends in the cap limit=10. -/
theorem search_medications_contract :
    (∀ (α β : Type) (mapFn : List α → List β) (rs : List α),
      search_medications mapFn (FetchOutcome.failure) = (404, []) ∧
      search_medications mapFn (FetchOutcome.success none) = (200, []) ∧
      search_medications mapFn (FetchOutcome.success (some rs)) = (200, mapFn rs)) ∧
    (∀ base q : String,
      (∃ r, searchUrl base q =
        base ++ "?search=(openfda.brand_name:\"" ++ r) ∧
      (∃ l r, searchUrl base q = l ++ "\" OR openfda.generic_name:\"" ++ r) ∧
      (∃ l r, searchUrl base q = l ++ "\"OR openfda.product_ndc:\"" ++ r) ∧
      (∃ l, searchUrl base q = l ++ "\")&limit=10")) := by
  constructor
  · exact fun α β mapFn rs => ⟨rfl, rfl, rfl⟩
  · intro base q
    refine ⟨⟨q ++ "\" OR openfda.generic_name:\"" ++ (q ++ "\"OR openfda.product_ndc:\"" ++ (q ++ "\")&limit=10")), ?_⟩,
      ⟨base ++ "?search=(openfda.brand_name:\"" ++ q,
        q ++ "\"OR openfda.product_ndc:\"" ++ (q ++ "\")&limit=10"), ?_⟩,
      ⟨base ++ "?search=(openfda.brand_name:\"" ++ q ++ "\" OR openfda.generic_name:\"" ++ q,
        q ++ "\")&limit=10", ?_⟩,
      ⟨base ++ "?search=(openfda.brand_name:\"" ++ q ++ "\" OR openfda.generic_name:\"" ++ q ++ "\"OR openfda.product_ndc:\"" ++ q, ?_⟩⟩ <;>
      simp [searchUrl, String.append_assoc]

/-- Claim C8: getPatientMedications answers the empty sequence (not an error) when the patient or its Cabinet is absent, and otherwise exactly one output row per CabinetBox with a resolved Medication, silently skipping boxes without one, so its length is the count of resolved boxes. -/
theorem getPatientMedications_rows (db : Store) (patientId : JsVal) :
    (db.patients.find? (fun p => p.id = patientId) = none →
      getPatientMedications db patientId = []) ∧
    (∀ p, db.patients.find? (fun q => q.id = patientId) = some p →
      p.cabinet = none → getPatientMedications db patientId = []) ∧
    (∀ p cab, db.patients.find? (fun q => q.id = patientId) = some p →
      p.cabinet = some cab →
      getPatientMedications db patientId = cab.boxes.filterMap boxView ∧
      (getPatientMedications db patientId).length =
        cab.boxes.countP (fun b => b.medication.isSome)) := by
  refine ⟨?_, ?_, ?_⟩
  · intro h
    simp [getPatientMedications, h]
  · intro p hp hcab
    simp [getPatientMedications, hp, hcab]
  · intro p cab hp hcab
    have e : getPatientMedications db patientId = cab.boxes.filterMap boxView := by
      simp only [getPatientMedications, hp, hcab]
      rw [foldl_push_eq_filterMap cab.boxes []]
      simp
    exact ⟨e, by rw [e, length_filterMap_boxView]⟩

/-- Witness for C8: a cabinet with one resolved and one unresolved box produces one row; an unknown patient produces the empty sequence. -/
theorem getPatientMedications_rows_witness :
    getPatientMedications cabinetDemoStore (JsVal.num 3) =
      [⟨["0002-1433"], "BrandB", "GenericB", 1, 30⟩] ∧
    getPatientMedications cabinetDemoStore (JsVal.num 5) = [] := by
  have h := (getPatientMedications_rows cabinetDemoStore (JsVal.num 3)).2.2
    ⟨JsVal.num 3, some "caretaker@outlook.com",
      some ⟨[⟨some ⟨["0002-1433"], "BrandB", "GenericB"⟩, 1, 30⟩, ⟨none, 2, 10⟩]⟩⟩
    ⟨[⟨some ⟨["0002-1433"], "BrandB", "GenericB"⟩, 1, 30⟩, ⟨none, 2, 10⟩]⟩
    (by decide) rfl
  have h2 := (getPatientMedications_rows cabinetDemoStore (JsVal.num 5)).1
    (by decide)
  exact ⟨by rw [h.1]; decide, h2⟩

/-- Claim C9: with no store failures, recordSession and createSchedules answer 400 at validation exactly when patient_id or cabinet_id is undefined; any other value, also null, the empty string or 0, passes validation and the write path proceeds to 200, persisting rows. -/
theorem id_validation_rejects_only_undefined (db : Store) (pid cid : JsVal)
    (items : List ScheduleItem) (intakes : List IntakeItem) (em : String)
    (hem : getCaretakerEmail db.patients pid = some em) :
    ((post_schedule db schedNoFailures ⟨pid, cid, items⟩).status = 400 ↔
      (pid = JsVal.undef ∨ cid = JsVal.undef)) ∧
    ((post_session db noFailures ⟨pid, cid, intakes⟩).status = 400 ↔
      (pid = JsVal.undef ∨ cid = JsVal.undef)) ∧
    (¬ (pid = JsVal.undef ∨ cid = JsVal.undef) →
      (post_schedule db schedNoFailures ⟨pid, cid, items⟩).status = 200 ∧
      (post_session db noFailures ⟨pid, cid, intakes⟩).status = 200 ∧
      (post_schedule db schedNoFailures ⟨pid, cid, items⟩).store.schedules =
        db.schedules ++
          items.map (fun it => ⟨pid, it.medication_id, it.day, it.time⟩)) := by
  by_cases hval : pid = JsVal.undef ∨ cid = JsVal.undef
  · have e1 : post_schedule db schedNoFailures ⟨pid, cid, items⟩ = ⟨400, db⟩ := by
      simp [post_schedule, hval]
    have e2 : post_session db noFailures ⟨pid, cid, intakes⟩ = ⟨400, db, []⟩ := by
      simp [post_session, hval]
    rw [e1, e2]
    exact ⟨⟨fun _ => hval, fun _ => rfl⟩, ⟨fun _ => hval, fun _ => rfl⟩,
      fun h => absurd hval h⟩
  · have e1 : post_schedule db schedNoFailures ⟨pid, cid, items⟩ =
        ⟨200, { db with schedules := db.schedules ++ items.map (fun it => ScheduleRow.mk pid it.medication_id it.day it.time) }⟩ := by
      simp [post_schedule, hval,
        insertSchedules_noFail pid schedNoFailures (fun _ => rfl) items 0]
    have hpi := processIntakes_noFail db.patients noFailures pid
      db.sessions.length em hem (fun _ => rfl) (fun _ => rfl) intakes 0
    have e2 : (post_session db noFailures ⟨pid, cid, intakes⟩).status = 200 := by
      simp [post_session, hval, hpi, show noFailures.sessionCreateOk = true from rfl]
    rw [e1]
    refine ⟨⟨fun h => absurd h (by simp), fun h => absurd h hval⟩,
      ⟨fun h => ?_, fun h => absurd h hval⟩,
      fun _ => ⟨rfl, e2, rfl⟩⟩
    rw [e2] at h
    exact absurd h (by simp)

/-- Witness for C9: null and the empty string pass both handlers (status 200); an undefined cabinet id is rejected (status 400). -/
theorem id_validation_rejects_only_undefined_witness :
    (post_schedule validationDemoStore schedNoFailures
      ⟨JsVal.null, JsVal.str "", [⟨5, "Mon", "08:00"⟩]⟩).status = 200 ∧
    (post_session validationDemoStore noFailures
      ⟨JsVal.null, JsVal.str "", [⟨7, 0, 0, 60000, JsVal.num 0⟩]⟩).status = 200 ∧
    (post_schedule validationDemoStore schedNoFailures
      ⟨JsVal.null, JsVal.undef, [⟨5, "Mon", "08:00"⟩]⟩).status = 400 := by
  have h := id_validation_rejects_only_undefined validationDemoStore JsVal.null
    (JsVal.str "") [⟨5, "Mon", "08:00"⟩] [⟨7, 0, 0, 60000, JsVal.num 0⟩]
    "caretaker@outlook.com" (by decide)
  have h2 := h.2.2 (by decide)
  have h3 := id_validation_rejects_only_undefined validationDemoStore JsVal.null
    JsVal.undef [⟨5, "Mon", "08:00"⟩] [⟨7, 0, 0, 60000, JsVal.num 0⟩]
    "caretaker@outlook.com" (by decide)
  exact ⟨h2.1, h2.2.1, h3.1.2 (Or.inr rfl)⟩

/-- Claim C10: with no store failures, a caretaker notification is attempted for every intake item whose ingested field is falsy (undefined, null, 0, the empty string or false), not only for the boolean false. -/
theorem post_session_notifies_every_falsy_intake (db : Store)
    (fm : SessionFailures) (req : SessionReq) (em : String)
    (hp : req.patient_id ≠ JsVal.undef) (hc : req.cabinet_id ≠ JsVal.undef)
    (hs : fm.sessionCreateOk = true)
    (hcr : ∀ i, fm.intakeCreateOk i = true)
    (hml : ∀ i, fm.emailOk i = true)
    (hem : getCaretakerEmail db.patients req.patient_id = some em) :
    (post_session db fm req).emails =
      (req.session_intakes.filter
        (fun item => ! item.ingested.truthy)).map (fun _ => em) ∧
    JsVal.undef.truthy = false ∧ JsVal.null.truthy = false ∧
    (JsVal.num 0).truthy = false ∧ (JsVal.str "").truthy = false ∧
    (JsVal.bool false).truthy = false ∧ (JsVal.bool true).truthy = true := by
  have hval : ¬ (req.patient_id = JsVal.undef ∨ req.cabinet_id = JsVal.undef) := by
    rintro (h | h)
    · exact hp h
    · exact hc h
  have hpi := processIntakes_noFail db.patients fm req.patient_id
    db.sessions.length em hem hcr hml req.session_intakes 0
  refine ⟨?_, rfl, rfl, by decide, by decide, rfl, rfl⟩
  simp [post_session, hval, hs, hpi]

/-- Witness for C10: of six intake items carrying undefined, null, 0, the empty string, false and 5, the five falsy ones each produce one attempt. -/
theorem post_session_notifies_every_falsy_intake_witness :
    (post_session alertStore noFailures falsyDemoReq).emails =
      ["caretaker@outlook.com", "caretaker@outlook.com", "caretaker@outlook.com",
       "caretaker@outlook.com", "caretaker@outlook.com"] := by
  have h := post_session_notifies_every_falsy_intake alertStore noFailures
    falsyDemoReq "caretaker@outlook.com" (by decide) (by decide) rfl
    (fun _ => rfl) (fun _ => rfl) (by decide)
  rw [h.1]
  decide

end CareTakerPortal
